import Mathlib

/-!
Verification of the `itemp` compact temperature representation (itemp.c).

The C code stores a temperature as a 16-bit unsigned integer (`itemp_t`)
related to hundredths of a degree by an affine transform
`itemp = (hundredths + OFFSET) * SLOPE` with `F_100_OFFSET = 1552`,
`F_100_SLOPE = 5`, `C_100_OFFSET = 2640`, `C_100_SLOPE = 9`.  Decoding
uses a round-to-nearest integer division primitive `rquo`.

The embedding below models machine integers as `Int` with explicit
wrapping: conversion to `uint16_t` is reduction modulo 2^16 into
[0, 65535]; conversion to `int16_t` is reduction modulo 2^16 into
[-32768, 32767].  C's truncating division `/` on `int32_t` is `Int.tdiv`.
Intermediate `int` (32-bit) arithmetic is modeled without wrapping; the
theorems that depend on it carry the representability hypotheses stated
by the corresponding claims (signed overflow would be undefined behavior
in the C source, so no wrapped behavior is available to model).
-/

namespace Itemp

/-- Conversion of an integer to `uint16_t`: wrap modulo 2^16 into [0, 65535]. -/
def toUInt16 (n : Int) : Int := n % 65536

/-- Conversion of an integer to `int16_t`: wrap modulo 2^16 into [-32768, 32767]. -/
def toInt16 (n : Int) : Int := (n + 32768) % 65536 - 32768

/-- The quotient computed inside `rquo` before the narrowing of the returned
`int32_t` expression to the `int16_t` return type.  The C test `(x ^ y) >= 0`
on `int32_t` holds exactly when the sign bits of `x` and `y` agree, i.e. when
`0 ≤ x ↔ 0 ≤ y`; `y/2` and the outer `/` are C truncating divisions
(`Int.tdiv`). -/
def rquo_wide (x y : Int) : Int :=
  if (0 ≤ x ∧ 0 ≤ y) ∨ (x < 0 ∧ y < 0) then
    (x + Int.tdiv y 2).tdiv y
  else
    (x - Int.tdiv y 2).tdiv y

/-- `static int16_t rquo(int32_t x, int32_t y)`: x/y rounded to the nearest
integer (4 quadrant), narrowed to `int16_t`. -/
def rquo (x y : Int) : Int := toInt16 (rquo_wide x y)

/-- `itemp_t fahrenheit_100_to_itemp(int16_t fahrenheit_100)`:
`(fahrenheit_100 + F_100_OFFSET) * F_100_SLOPE` converted to `uint16_t`. -/
def fahrenheit_100_to_itemp (v : Int) : Int := toUInt16 ((v + 1552) * 5)

/-- `itemp_t fahrenheit_10_to_itemp(int16_t fahrenheit_10)`: the int product
`fahrenheit_10 * 10` is narrowed to the `int16_t` parameter of
`fahrenheit_100_to_itemp`. -/
def fahrenheit_10_to_itemp (v : Int) : Int := fahrenheit_100_to_itemp (toInt16 (v * 10))

/-- `itemp_t fahrenheit_1_to_itemp(int16_t fahrenheit_1)`. -/
def fahrenheit_1_to_itemp (v : Int) : Int := fahrenheit_100_to_itemp (toInt16 (v * 100))

/-- `int16_t itemp_to_fahrenheit_100(itemp_t itemp)`:
`rquo(itemp, F_100_SLOPE) - F_100_OFFSET`, the int subtraction narrowed to the
`int16_t` return type. -/
def itemp_to_fahrenheit_100 (t : Int) : Int := toInt16 (rquo t 5 - 1552)

/-- `int16_t itemp_to_fahrenheit_10(itemp_t itemp)`. -/
def itemp_to_fahrenheit_10 (t : Int) : Int := rquo (itemp_to_fahrenheit_100 t) 10

/-- `int16_t itemp_to_fahrenheit_1(itemp_t itemp)`. -/
def itemp_to_fahrenheit_1 (t : Int) : Int := rquo (itemp_to_fahrenheit_100 t) 100

/-- `itemp_t celsius_100_to_itemp(int16_t celsius_100)`:
`(celsius_100 + C_100_OFFSET) * C_100_SLOPE` converted to `uint16_t`. -/
def celsius_100_to_itemp (v : Int) : Int := toUInt16 ((v + 2640) * 9)

/-- `itemp_t celsius_10_to_itemp(int16_t celsius_10)`. -/
def celsius_10_to_itemp (v : Int) : Int := celsius_100_to_itemp (toInt16 (v * 10))

/-- `itemp_t celsius_1_to_itemp(int16_t celsius_1)`. -/
def celsius_1_to_itemp (v : Int) : Int := celsius_100_to_itemp (toInt16 (v * 100))

/-- `int16_t itemp_to_celsius_100(itemp_t itemp)`:
`rquo(itemp, C_100_SLOPE) - C_100_OFFSET`. -/
def itemp_to_celsius_100 (t : Int) : Int := toInt16 (rquo t 9 - 2640)

/-- `int16_t itemp_to_celsius_10(itemp_t itemp)`. -/
def itemp_to_celsius_10 (t : Int) : Int := rquo (itemp_to_celsius_100 t) 10

/-- `int16_t itemp_to_celsius_1(itemp_t itemp)`. -/
def itemp_to_celsius_1 (t : Int) : Int := rquo (itemp_to_celsius_100 t) 100

/-- `float itemp_to_fahrenheit(itemp_t itemp)` modeled in exact rational
arithmetic: `((itemp / (float)F_100_SLOPE) - F_100_OFFSET) / 100.0` (the float
decode path uses real division with no rounding primitive; IEEE float rounding
is not modeled). -/
def itemp_to_fahrenheit (t : Int) : ℚ := ((t : ℚ) / 5 - 1552) / 100

/-- `#define ITEMP_ONE_DEGREE_F 500` (itemp.h). -/
def ITEMP_ONE_DEGREE_F : Int := 500

/-- `#define ITEMP_ONE_TENTH_DEGREE_F 50` (itemp.h). -/
def ITEMP_ONE_TENTH_DEGREE_F : Int := 50

/-- `#define ITEMP_ONE_HUNDRETH_DEGREE_F 5` (itemp.h). -/
def ITEMP_ONE_HUNDRETH_DEGREE_F : Int := 5

/-- `#define ITEMP_ONE_DEGREE_C 900` (itemp.h). -/
def ITEMP_ONE_DEGREE_C : Int := 900

/-- `#define ITEMP_ONE_TENTH_DEGREE_C 90` (itemp.h). -/
def ITEMP_ONE_TENTH_DEGREE_C : Int := 90

/-- `#define ITEMP_ONE_HUNDRETH_DEGREE_C 9` (itemp.h). -/
def ITEMP_ONE_HUNDRETH_DEGREE_C : Int := 9

/-- Modelled from the spec (§4.3 / glossary): round a rational to the nearest
integer with ties broken away from zero. -/
def roundAway (q : ℚ) : Int := if 0 ≤ q then ⌊q + 1 / 2⌋ else ⌈q - 1 / 2⌉

/-- For a nonnegative numerator and positive divisor, the same-sign branch of
`rquo` is taken and all truncating divisions agree with Euclidean division. -/
lemma rquo_pos (x y : Int) (hx : 0 ≤ x) (hy : 0 < y) :
    rquo_wide x y = (x + y / 2) / y := by
  unfold rquo_wide
  rw [if_pos (Or.inl ⟨hx, hy.le⟩), Int.tdiv_eq_ediv hy.le (by norm_num),
    Int.tdiv_eq_ediv (add_nonneg hx (Int.ediv_nonneg hy.le (by norm_num))) hy.le]

/-- Closed form of the Fahrenheit hundredths decode on the encoded range:
no 16-bit narrowing changes any intermediate value. -/
lemma fah100_eq (t : Int) (h0 : 0 ≤ t) (h1 : t ≤ 65535) :
    itemp_to_fahrenheit_100 t = (t + 2) / 5 - 1552 := by
  have h5 : rquo_wide t 5 = (t + 2) / 5 := by
    rw [rquo_pos t 5 h0 (by norm_num)]; norm_num
  unfold itemp_to_fahrenheit_100 rquo toInt16
  rw [h5]
  omega

/-- Closed form of the Celsius hundredths decode on the encoded range. -/
lemma cel100_eq (t : Int) (h0 : 0 ≤ t) (h1 : t ≤ 65535) :
    itemp_to_celsius_100 t = (t + 4) / 9 - 2640 := by
  have h9 : rquo_wide t 9 = (t + 4) / 9 := by
    rw [rquo_pos t 9 h0 (by norm_num)]; norm_num
  unfold itemp_to_celsius_100 rquo toInt16
  rw [h9]
  omega

/-- C1, counterexample: the claim states `itemp_to_celsius_100(65535) == 4641`;
the code computes 4642 (as its own unit test at itemp.c:395 asserts). -/
theorem claim_C1_counterexample : ¬ itemp_to_celsius_100 65535 = 4641 := by decide

/-- C1, amended: decoding the maximum encoded value 65535 to Celsius
hundredths yields 4642, matching the unit test `ASSERT_INT(itemp_to_celsius_100(65535), 4642)`. -/
theorem claim_C1 : itemp_to_celsius_100 65535 = 4642 := by decide

/-- C2: exact Fahrenheit integer round-trip: for every integer v with
-1552 ≤ v ≤ 11555, `itemp_to_fahrenheit_100 (fahrenheit_100_to_itemp v) = v`. -/
theorem claim_C2 (v : Int) (h0 : -1552 ≤ v) (h1 : v ≤ 11555) :
    itemp_to_fahrenheit_100 (fahrenheit_100_to_itemp v) = v := by
  have he : fahrenheit_100_to_itemp v = (v + 1552) * 5 := by
    unfold fahrenheit_100_to_itemp toUInt16; omega
  rw [he, fah100_eq ((v + 1552) * 5) (by omega) (by omega)]
  omega

/-- C2 witness: the round-trip at v = 7000 (70 °F). -/
theorem claim_C2_witness :
    (-1552 ≤ (7000 : Int) ∧ (7000 : Int) ≤ 11555) ∧
    itemp_to_fahrenheit_100 (fahrenheit_100_to_itemp 7000) = 7000 :=
  ⟨by decide, claim_C2 7000 (by decide) (by decide)⟩

/-- C5: every conversion is total with no error path; out-of-documented-range
encode inputs wrap silently: for every 16-bit signed input v,
`fahrenheit_100_to_itemp v = ((v + 1552) * 5) % 65536` and
`celsius_100_to_itemp v = ((v + 2640) * 9) % 65536`. -/
theorem claim_C5 (v : Int) (h0 : -32768 ≤ v) (h1 : v ≤ 32767) :
    fahrenheit_100_to_itemp v = ((v + 1552) * 5) % 65536 ∧
    celsius_100_to_itemp v = ((v + 2640) * 9) % 65536 :=
  ⟨rfl, rfl⟩

/-- C5 witness: at v = 30000 (out of documented range) both encoders wrap. -/
theorem claim_C5_witness :
    (-32768 ≤ (30000 : Int) ∧ (30000 : Int) ≤ 32767) ∧
    (fahrenheit_100_to_itemp 30000 = ((30000 + 1552) * 5) % 65536 ∧
      celsius_100_to_itemp 30000 = ((30000 + 2640) * 9) % 65536) :=
  ⟨by decide, claim_C5 30000 (by decide) (by decide)⟩

/-- C6: every coarse decode is the two-stage (double) rounding of the
canonical hundredths decode, and the two-stage form is not equivalent to a
single-stage rounding of the raw encoded value (witnessed at t = 8008, where
the two-stage whole-degree decode gives 1 but one-stage rounding of the raw
encoded offset gives 0). -/
theorem claim_C6 :
    (∀ t : Int, itemp_to_fahrenheit_1 t = rquo (itemp_to_fahrenheit_100 t) 100) ∧
    (∀ t : Int, itemp_to_fahrenheit_10 t = rquo (itemp_to_fahrenheit_100 t) 10) ∧
    (∀ t : Int, itemp_to_celsius_1 t = rquo (itemp_to_celsius_100 t) 100) ∧
    (∀ t : Int, itemp_to_celsius_10 t = rquo (itemp_to_celsius_100 t) 10) ∧
    (itemp_to_fahrenheit_1 8008 = 1 ∧ rquo (8008 - 7760) 500 = 0) :=
  ⟨fun _ => rfl, fun _ => rfl, fun _ => rfl, fun _ => rfl, by decide⟩

/-- C7: cross-unit arithmetic scenario from the unit test: start at 70 °F,
subtract 2 degrees F, decode to 6800 (F hundredths) and 2000 (C hundredths),
then add 18 hundredths F and decode to 6818 and 2010.  The in-place
adjustments of the `itemp_t` variable are `uint16_t` arithmetic. -/
theorem claim_C7 :
    itemp_to_fahrenheit_100 (fahrenheit_1_to_itemp 70) = 7000 ∧
    itemp_to_fahrenheit_100 (toUInt16 (fahrenheit_1_to_itemp 70 - 2 * ITEMP_ONE_DEGREE_F)) = 6800 ∧
    itemp_to_celsius_100 (toUInt16 (fahrenheit_1_to_itemp 70 - 2 * ITEMP_ONE_DEGREE_F)) = 2000 ∧
    itemp_to_fahrenheit_100 (toUInt16 (toUInt16 (fahrenheit_1_to_itemp 70 - 2 * ITEMP_ONE_DEGREE_F) +
      18 * ITEMP_ONE_HUNDRETH_DEGREE_F)) = 6818 ∧
    itemp_to_celsius_100 (toUInt16 (toUInt16 (fahrenheit_1_to_itemp 70 - 2 * ITEMP_ONE_DEGREE_F) +
      18 * ITEMP_ONE_HUNDRETH_DEGREE_F)) = 2010 := by
  decide

/-- C9: exact Celsius integer round-trip: for every integer v with
-2640 ≤ v ≤ 4641, `itemp_to_celsius_100 (celsius_100_to_itemp v) = v`. -/
theorem claim_C9 (v : Int) (h0 : -2640 ≤ v) (h1 : v ≤ 4641) :
    itemp_to_celsius_100 (celsius_100_to_itemp v) = v := by
  have he : celsius_100_to_itemp v = (v + 2640) * 9 := by
    unfold celsius_100_to_itemp toUInt16; omega
  rw [he, cel100_eq ((v + 2640) * 9) (by omega) (by omega)]
  omega

/-- C9 witness: the round-trip at v = 2000 (20 °C). -/
theorem claim_C9_witness :
    (-2640 ≤ (2000 : Int) ∧ (2000 : Int) ≤ 4641) ∧
    itemp_to_celsius_100 (celsius_100_to_itemp 2000) = 2000 :=
  ⟨by decide, claim_C9 2000 (by decide) (by decide)⟩

/-- C4: arithmetic on the encoded value is equivalent to arithmetic on the
decoded temperature: as long as `t + k * step` stays within [0, 65535],
stepping the encoded value by k hundredth-degree steps shifts the decoded
hundredths by exactly k, in each unit system. -/
theorem claim_C4 (t k : Int) (h0 : 0 ≤ t) (h1 : t ≤ 65535) :
    (0 ≤ t + k * ITEMP_ONE_HUNDRETH_DEGREE_F → t + k * ITEMP_ONE_HUNDRETH_DEGREE_F ≤ 65535 →
      itemp_to_fahrenheit_100 (t + k * ITEMP_ONE_HUNDRETH_DEGREE_F) =
        itemp_to_fahrenheit_100 t + k) ∧
    (0 ≤ t + k * ITEMP_ONE_HUNDRETH_DEGREE_C → t + k * ITEMP_ONE_HUNDRETH_DEGREE_C ≤ 65535 →
      itemp_to_celsius_100 (t + k * ITEMP_ONE_HUNDRETH_DEGREE_C) =
        itemp_to_celsius_100 t + k) := by
  unfold ITEMP_ONE_HUNDRETH_DEGREE_F ITEMP_ONE_HUNDRETH_DEGREE_C
  constructor
  · intro h2 h3
    rw [fah100_eq t h0 h1, fah100_eq (t + k * 5) h2 h3]
    omega
  · intro h2 h3
    rw [cel100_eq t h0 h1, cel100_eq (t + k * 9) h2 h3]
    omega

/-- C4 witness: one hundredth-degree-F step up from the encoding of 70 °F. -/
theorem claim_C4_witness :
    ((0 : Int) ≤ 42760 ∧ (42760 : Int) ≤ 65535) ∧
    itemp_to_fahrenheit_100 (42760 + 1 * ITEMP_ONE_HUNDRETH_DEGREE_F) =
      itemp_to_fahrenheit_100 42760 + 1 :=
  ⟨by decide, (claim_C4 42760 1 (by decide) (by decide)).1 (by decide) (by decide)⟩

/-- C8: decoding is order-preserving: for encoded values a < b, the float
decode (modeled in exact rational arithmetic) and the integer hundredths
decode are both monotone non-decreasing. -/
theorem claim_C8 (a b : Int) (h0 : 0 ≤ a) (hab : a < b) (h1 : b ≤ 65535) :
    itemp_to_fahrenheit a ≤ itemp_to_fahrenheit b ∧
    itemp_to_fahrenheit_100 a ≤ itemp_to_fahrenheit_100 b := by
  constructor
  · unfold itemp_to_fahrenheit
    have hq : (a : ℚ) ≤ (b : ℚ) := by exact_mod_cast hab.le
    gcongr
  · rw [fah100_eq a h0 (by omega), fah100_eq b (by omega) h1]
    omega

/-- C8 witness: monotonicity between the encoded values 0 and 1. -/
theorem claim_C8_witness :
    ((0 : Int) ≤ 0 ∧ (0 : Int) < 1 ∧ (1 : Int) ≤ 65535) ∧
    (itemp_to_fahrenheit 0 ≤ itemp_to_fahrenheit 1 ∧
      itemp_to_fahrenheit_100 0 ≤ itemp_to_fahrenheit_100 1) :=
  ⟨by decide, claim_C8 0 1 (by decide) (by decide) (by decide)⟩

/-- C truncating division in terms of Euclidean division, for a nonnegative
divisor. -/
lemma tdiv_cases (x y : Int) (hy : 0 ≤ y) :
    Int.tdiv x y = if 0 ≤ x then x / y else -(-x / y) := by
  rcases le_or_lt 0 x with hx | hx
  · rw [if_pos hx, Int.tdiv_eq_ediv hx hy]
  · have h := Int.neg_tdiv (-x) y
    rw [neg_neg] at h
    rw [if_neg (not_le.mpr hx), h, Int.tdiv_eq_ediv (by omega) hy]

/-- Sign-split closed form of the un-narrowed `rquo` quotient for a positive
divisor, in terms of Euclidean division. -/
lemma rquo_wide_div (x y : Int) (hy : 0 < y) :
    rquo_wide x y = if 0 ≤ x then (x + y / 2) / y else -((-x + y / 2) / y) := by
  rcases le_or_lt 0 x with hx | hx
  · rw [if_pos hx, rquo_pos x y hx hy]
  · rw [if_neg (not_le.mpr hx)]
    unfold rquo_wide
    have hhalf : 0 ≤ y / 2 := Int.ediv_nonneg hy.le (by norm_num)
    rw [if_neg (by omega), Int.tdiv_eq_ediv hy.le (by norm_num),
      tdiv_cases (x - y / 2) y hy.le, if_neg (by omega),
      show -(x - y / 2) = -x + y / 2 from by ring]

/-- The narrowing of the `rquo` quotient to `int16_t` is the identity whenever
the quotient fits. -/
lemma rquo_eq_wide (x y : Int) (hlo : -32768 ≤ rquo_wide x y) (hhi : rquo_wide x y ≤ 32767) :
    rquo x y = rquo_wide x y := by
  unfold rquo toInt16; omega

/-- C10: on every integer decode path the value before 16-bit narrowing fits
`int16_t`, so the narrowing never changes a value: hundredths decodes stay in
[-1552, 11555] (F) and [-2640, 4642] (C), the hundredths decodes equal their
un-narrowed forms, and the coarse decodes equal the un-narrowed quotients of
the hundredths values. -/
theorem claim_C10 (t : Int) (h0 : 0 ≤ t) (h1 : t ≤ 65535) :
    (-1552 ≤ itemp_to_fahrenheit_100 t ∧ itemp_to_fahrenheit_100 t ≤ 11555) ∧
    (-2640 ≤ itemp_to_celsius_100 t ∧ itemp_to_celsius_100 t ≤ 4642) ∧
    itemp_to_fahrenheit_100 t = rquo_wide t 5 - 1552 ∧
    itemp_to_celsius_100 t = rquo_wide t 9 - 2640 ∧
    itemp_to_fahrenheit_10 t = rquo_wide (itemp_to_fahrenheit_100 t) 10 ∧
    itemp_to_fahrenheit_1 t = rquo_wide (itemp_to_fahrenheit_100 t) 100 ∧
    itemp_to_celsius_10 t = rquo_wide (itemp_to_celsius_100 t) 10 ∧
    itemp_to_celsius_1 t = rquo_wide (itemp_to_celsius_100 t) 100 := by
  have hf := fah100_eq t h0 h1
  have hc := cel100_eq t h0 h1
  have h5 : rquo_wide t 5 = (t + 2) / 5 := by
    rw [rquo_pos t 5 h0 (by norm_num)]; norm_num
  have h9 : rquo_wide t 9 = (t + 4) / 9 := by
    rw [rquo_pos t 9 h0 (by norm_num)]; norm_num
  refine ⟨⟨?_, ?_⟩, ⟨?_, ?_⟩, ?_, ?_, ?_, ?_, ?_, ?_⟩
  · rw [hf]; omega
  · rw [hf]; omega
  · rw [hc]; omega
  · rw [hc]; omega
  · rw [hf, h5]
  · rw [hc, h9]
  · show rquo (itemp_to_fahrenheit_100 t) 10 = rquo_wide (itemp_to_fahrenheit_100 t) 10
    rw [hf]
    refine rquo_eq_wide _ _ ?_ ?_ <;>
      rw [rquo_wide_div _ 10 (by norm_num)] <;> split_ifs <;> omega
  · show rquo (itemp_to_fahrenheit_100 t) 100 = rquo_wide (itemp_to_fahrenheit_100 t) 100
    rw [hf]
    refine rquo_eq_wide _ _ ?_ ?_ <;>
      rw [rquo_wide_div _ 100 (by norm_num)] <;> split_ifs <;> omega
  · show rquo (itemp_to_celsius_100 t) 10 = rquo_wide (itemp_to_celsius_100 t) 10
    rw [hc]
    refine rquo_eq_wide _ _ ?_ ?_ <;>
      rw [rquo_wide_div _ 10 (by norm_num)] <;> split_ifs <;> omega
  · show rquo (itemp_to_celsius_100 t) 100 = rquo_wide (itemp_to_celsius_100 t) 100
    rw [hc]
    refine rquo_eq_wide _ _ ?_ ?_ <;>
      rw [rquo_wide_div _ 100 (by norm_num)] <;> split_ifs <;> omega

/-- C10 witness: the decode paths at the maximum encoded value. -/
theorem claim_C10_witness :
    ((0 : Int) ≤ 65535 ∧ (65535 : Int) ≤ 65535) ∧
    ((-1552 ≤ itemp_to_fahrenheit_100 65535 ∧ itemp_to_fahrenheit_100 65535 ≤ 11555) ∧
      (-2640 ≤ itemp_to_celsius_100 65535 ∧ itemp_to_celsius_100 65535 ≤ 4642) ∧
      itemp_to_fahrenheit_100 65535 = rquo_wide 65535 5 - 1552 ∧
      itemp_to_celsius_100 65535 = rquo_wide 65535 9 - 2640 ∧
      itemp_to_fahrenheit_10 65535 = rquo_wide (itemp_to_fahrenheit_100 65535) 10 ∧
      itemp_to_fahrenheit_1 65535 = rquo_wide (itemp_to_fahrenheit_100 65535) 100 ∧
      itemp_to_celsius_10 65535 = rquo_wide (itemp_to_celsius_100 65535) 10 ∧
      itemp_to_celsius_1 65535 = rquo_wide (itemp_to_celsius_100 65535) 100) :=
  ⟨by decide, claim_C10 65535 (by decide) (by decide)⟩

/-- Adding half the (positive) divisor before flooring computes the rational
round-half-up. -/
lemma ediv_half (x y : Int) (hy : 0 < y) :
    (x + y / 2) / y = ⌊(x : ℚ) / (y : ℚ) + 1 / 2⌋ := by
  have hyne : y ≠ 0 := by omega
  have hyq : ((y : ℚ)) ≠ 0 := by exact_mod_cast hyne
  have hty : (((2 * y).toNat : ℕ) : ℚ) = 2 * (y : ℚ) := by
    have h1 : ((2 * y).toNat : Int) = 2 * y := Int.toNat_of_nonneg (by omega)
    have h2 : (((2 * y).toNat : ℕ) : ℚ) = (((2 * y).toNat : Int) : ℚ) := by push_cast; ring
    rw [h2, h1]; push_cast; ring
  have hxy : (x : ℚ) / (y : ℚ) + 1 / 2 = ((2 * x + y : Int) : ℚ) / (((2 * y).toNat : ℕ) : ℚ) := by
    rw [hty]; push_cast; field_simp; ring
  rw [hxy, Rat.floor_intCast_div_natCast]
  have hty2 : (((2 * y).toNat : ℕ) : Int) = 2 * y := Int.toNat_of_nonneg (by omega)
  rw [hty2]
  obtain ⟨r, hr0, hr1, hdm⟩ :
      ∃ r, 0 ≤ r ∧ r < y ∧ y * ((x + y / 2) / y) + r = x + y / 2 :=
    ⟨(x + y / 2) % y, Int.emod_nonneg _ hyne, Int.emod_lt_of_pos _ hy, Int.ediv_add_emod _ _⟩
  have hd2 := Int.ediv_add_emod y 2
  have huniq := Int.ediv_emod_unique (a := 2 * x + y) (b := 2 * y)
    (r := 2 * r + y % 2) (q := (x + y / 2) / y) (show (0 : Int) < 2 * y by omega)
  refine ((huniq.mpr ⟨?_, ?_, ?_⟩).1).symm
  · linear_combination 2 * hdm + hd2
  · omega
  · omega

/-- The spec rounding is an odd function. -/
lemma roundAway_neg (q : ℚ) : roundAway (-q) = -roundAway q := by
  unfold roundAway
  rcases lt_trichotomy q 0 with h | h | h
  · rw [if_pos (by linarith), if_neg (by linarith),
      show -q + 1 / 2 = -(q - 1 / 2) from by ring, Int.floor_neg]
  · subst h; norm_num
  · rw [if_neg (by linarith), if_pos h.le,
      show -q - 1 / 2 = -(q + 1 / 2) from by ring, Int.ceil_neg]

/-- The spec rounding lands within half a unit of its argument. -/
lemma roundAway_nearest (q : ℚ) : |(roundAway q : ℚ) - q| ≤ 1 / 2 := by
  unfold roundAway
  split_ifs with h
  · have h1 := Int.floor_le (q + 1 / 2)
    have h2 := Int.lt_floor_add_one (q + 1 / 2)
    rw [abs_le]
    constructor <;> linarith
  · have h1 := Int.le_ceil (q - 1 / 2)
    have h2 := Int.ceil_lt_add_one (q - 1 / 2)
    rw [abs_le]
    constructor <;> linarith

/-- Negating the divisor negates the un-narrowed `rquo` quotient. -/
lemma rquo_wide_neg_right (x y : Int) (hy : y ≠ 0) :
    rquo_wide x (-y) = -rquo_wide x y := by
  unfold rquo_wide
  rcases le_or_lt 0 x with hx | hx <;> rcases lt_or_gt_of_ne hy with hy0 | hy0
  · rw [if_pos (Or.inl ⟨hx, by omega⟩), if_neg (by omega), Int.neg_tdiv, Int.tdiv_neg,
      ← sub_eq_add_neg]
  · rw [if_neg (by omega), if_pos (Or.inl ⟨hx, by omega⟩), Int.neg_tdiv, Int.tdiv_neg,
      sub_neg_eq_add]
  · rw [if_neg (by omega), if_pos (Or.inr ⟨hx, by omega⟩), Int.neg_tdiv, Int.tdiv_neg,
      sub_neg_eq_add]
  · rw [if_pos (Or.inr ⟨hx, by omega⟩), if_neg (by omega), Int.neg_tdiv, Int.tdiv_neg,
      ← sub_eq_add_neg]

/-- Four-quadrant correctness of the un-narrowed `rquo` quotient: it computes
the nearest integer to x/y with ties rounded away from zero. -/
lemma rquo_wide_round (x y : Int) (hy : y ≠ 0) :
    rquo_wide x y = roundAway ((x : ℚ) / (y : ℚ)) := by
  have main : ∀ a b : Int, 0 < b → rquo_wide a b = roundAway ((a : ℚ) / (b : ℚ)) := by
    intro a b hb
    have hbq : (0 : ℚ) < (b : ℚ) := by exact_mod_cast hb
    have hhalf : 0 ≤ b / 2 := Int.ediv_nonneg hb.le (by norm_num)
    rcases le_or_lt 0 a with ha | ha
    · unfold rquo_wide
      rw [if_pos (Or.inl ⟨ha, hb.le⟩), Int.tdiv_eq_ediv hb.le (by norm_num),
        Int.tdiv_eq_ediv (by omega) hb.le, ediv_half a b hb]
      unfold roundAway
      rw [if_pos (div_nonneg (by exact_mod_cast ha) hbq.le)]
    · unfold rquo_wide
      rw [if_neg (by omega), Int.tdiv_eq_ediv hb.le (by norm_num)]
      have h1 : (a - b / 2).tdiv b = -((-a + b / 2) / b) := by
        rw [show a - b / 2 = -(-a + b / 2) from by ring, Int.neg_tdiv,
          Int.tdiv_eq_ediv (by omega) hb.le]
      rw [h1, ediv_half (-a) b hb]
      unfold roundAway
      have hq : (a : ℚ) / (b : ℚ) < 0 := div_neg_of_neg_of_pos (by exact_mod_cast ha) hbq
      rw [if_neg (not_le.mpr hq),
        show (a : ℚ) / (b : ℚ) - 1 / 2 = -(((-a : Int) : ℚ) / (b : ℚ) + 1 / 2) from by
          push_cast; ring,
        Int.ceil_neg]
  rcases lt_trichotomy y 0 with hy0 | hy0 | hy0
  · have hsym := rquo_wide_neg_right x (-y) (by omega)
    rw [neg_neg] at hsym
    rw [hsym, main x (-y) (by omega), show (((-y : Int)) : ℚ) = -(y : ℚ) from by push_cast; ring,
      div_neg, roundAway_neg, neg_neg]
  · exact absurd hy0 hy
  · exact main x y hy0

/-- C3: the rounded-quotient primitive rounds half away from zero in all four
sign combinations: for integers x and nonzero y whose intermediate sums are
`int32_t`-representable and whose rounded quotient is `int16_t`-representable,
`rquo x y` is the nearest integer to the exact rational x/y with ties away
from zero (`roundAway`), and that value is within 1/2 of x/y. -/
theorem claim_C3 (x y : Int) (hy : y ≠ 0)
    (h32a : -2147483648 ≤ x + Int.tdiv y 2) (h32b : x + Int.tdiv y 2 ≤ 2147483647)
    (h32c : -2147483648 ≤ x - Int.tdiv y 2) (h32d : x - Int.tdiv y 2 ≤ 2147483647)
    (h16a : -32768 ≤ roundAway ((x : ℚ) / (y : ℚ)))
    (h16b : roundAway ((x : ℚ) / (y : ℚ)) ≤ 32767) :
    rquo x y = roundAway ((x : ℚ) / (y : ℚ)) ∧
    |(roundAway ((x : ℚ) / (y : ℚ)) : ℚ) - (x : ℚ) / (y : ℚ)| ≤ 1 / 2 := by
  constructor
  · unfold rquo
    rw [rquo_wide_round x y hy]
    unfold toInt16
    omega
  · exact roundAway_nearest _

/-- C3 witness: x = 7, y = -2, where the exact quotient -3.5 rounds away from
zero to -4. -/
theorem claim_C3_witness :
    ((-2 : Int) ≠ 0 ∧ roundAway (((7 : Int) : ℚ) / ((-2 : Int) : ℚ)) = -4) ∧
    (rquo 7 (-2) = roundAway (((7 : Int) : ℚ) / ((-2 : Int) : ℚ)) ∧
      |(roundAway (((7 : Int) : ℚ) / ((-2 : Int) : ℚ)) : ℚ) -
        ((7 : Int) : ℚ) / ((-2 : Int) : ℚ)| ≤ 1 / 2) := by
  have hval : roundAway (((7 : Int) : ℚ) / ((-2 : Int) : ℚ)) = -4 := by
    unfold roundAway
    rw [if_neg (by norm_num),
      show ((7 : Int) : ℚ) / ((-2 : Int) : ℚ) - 1 / 2 = ((-4 : Int) : ℚ) from by norm_num]
    exact Int.ceil_intCast _
  refine ⟨⟨by decide, hval⟩,
    claim_C3 7 (-2) (by decide) (by decide) (by decide) (by decide) (by decide) ?_ ?_⟩ <;>
    rw [hval] <;> decide

end Itemp
